import Mathlib

/-!
Shallow embedding of the `assistant` repository's knowledge-base core:
`src/back/src/knowledge_base/folder_watcher.py` (snapshot store, initial
diff, live move-event handler) and
`src/back/src/knowledge_base/docs_indexer.py` (text chunking and the
vector-store mutations behind the add/remove/rename callbacks).

Python dictionaries become association lists, filesystem reads and the
glob matcher become function parameters, exceptions become `Except`, and
side effects (snapshot persistence, callback invocation, embedding
requests) are reified as explicit traces.
-/

namespace Assistant

/-- A snapshot: Python dict mapping relative path to fingerprint hash,
as produced by `json.loads` / `scan_folder` (keys are unique there). -/
abbrev Snap := List (String × String)

/-- Keys of a snapshot (`dict.keys()`). -/
def snapKeys (s : Snap) : List String := s.map Prod.fst

/-- `added = new_paths - old_paths` in `FolderWatcher._initial_diff`. -/
def addedPaths (old new : Snap) : List String :=
  (snapKeys new).filter (fun p => decide (p ∉ snapKeys old))

/-- `removed = old_paths - new_paths` in `FolderWatcher._initial_diff`. -/
def removedPaths (old new : Snap) : List String :=
  (snapKeys old).filter (fun p => decide (p ∉ snapKeys new))

/-- The snapshot persisted mid-reconciliation by `_initial_diff`:
`dict(zip(list(old_paths - removed), [old[k] for k in ...]))`, i.e. the
old snapshot restricted to keys that were not removed. -/
def postRemovalSnap (old new : Snap) : Snap :=
  old.filter (fun kv => decide (kv.1 ∉ removedPaths old new))

/-- Observable actions of the watcher: persisting a snapshot to the
snapshot file (`save_snapshot`) and invoking the registered callbacks. -/
inductive Action where
  | persist (s : Snap)
  | cbAdd (p : String)
  | cbRemove (p : String)
  | cbRename (src dst : String)
deriving DecidableEq, Repr

/-- Whether an action is a callback invocation (as opposed to a snapshot
persistence). -/
def Action.isCallback : Action → Bool
  | .cbAdd _ => true
  | .cbRemove _ => true
  | .cbRename _ _ => true
  | .persist _ => false

/-- `FolderWatcher._initial_diff`, as the trace of actions it performs
together with the final in-memory snapshot.  The Python method:
saves the post-removal snapshot, fires `on_add` for each added path,
fires `on_remove` for each removed path, then saves the fresh scan. -/
def initialDiff (old new : Snap) : List Action × Snap :=
  ([Action.persist (postRemovalSnap old new)]
      ++ (addedPaths old new).map Action.cbAdd
      ++ (removedPaths old new).map Action.cbRemove
      ++ [Action.persist new],
   new)

/-- The snapshot held by the snapshot file after a list of actions has
run, given that it held `init` beforehand (`save_snapshot` overwrites
the whole file). -/
def lastPersist : List Action → Option Snap
  | [] => none
  | a :: rest =>
    match lastPersist rest with
    | some s => some s
    | none =>
      match a with
      | .persist s => some s
      | _ => none

/-- `FolderWatcher.load_snapshot`.  `file` is the snapshot file's
content (`none` when the file does not exist, so that `read_text`
raises `FileNotFoundError`, the only exception caught); `parse` models
`json.loads`, with `none` for a `json.JSONDecodeError`, which the
method does not catch. -/
def loadSnapshot (file : Option String) (parse : String → Option Snap) :
    Except String Snap :=
  match file with
  | none => Except.ok []
  | some text =>
    match parse text with
    | some snap => Except.ok snap
    | none => Except.error "JSONDecodeError"

/-- Runtime state of a `FolderWatcher`: its in-memory `last_snapshot`
and whether the watchdog observer has been started. -/
structure WatcherState where
  snap : Snap
  running : Bool
deriving DecidableEq, Repr

/-- `FolderWatcher.start`: load the persisted snapshot (propagating any
uncaught parse error), run `_initial_diff` against the live scan
`live`, then start the watchdog observer. -/
def startWatcher (file : Option String) (parse : String → Option Snap)
    (live : Snap) : Except String (WatcherState × List Action) :=
  match loadSnapshot file parse with
  | Except.error e => Except.error e
  | Except.ok snap0 =>
    let d := initialDiff snap0 live
    Except.ok ({ snap := d.2, running := true }, d.1)

/-- Modelled from the spec: `DocsIndexer.check` is not present in the
captured `docs_indexer.py` (only its caller, `memorize` in
`agent.py`, appears under `src/`).  The spec describes it as a
"manually re-triggerable reconciliation hook" that forces "the
startup-style diff-and-reconcile pass without restarting the
watcher": it re-runs the initial-diff pass of the running watcher
against the live directory scan, leaving the observer as it is. -/
def check (live : Snap) (st : WatcherState) : WatcherState × List Action :=
  let d := initialDiff st.snap live
  ({ st with snap := d.2 }, d.1)

/-- Callback invocations, as seen by the `DocsIndexer` handlers. -/
inductive Cb where
  | add (p : String)
  | remove (p : String)
  | rename (src dst : String)
deriving DecidableEq, Repr

/-- Python `snap[path] = hash` (`FolderWatcher._add_to_snapshot`, with
the fingerprint supplied by `hash`): update in place if the key is
present, else append. -/
def snapInsert (snap : Snap) (p h : String) : Snap :=
  if (snapKeys snap).contains p then
    snap.map (fun kv => if kv.1 = p then (p, h) else kv)
  else
    snap ++ [(p, h)]

/-- Python `del snap[path]` (`FolderWatcher._remove_from_snapshot`):
raises `KeyError` when the key is absent. -/
def snapDel (snap : Snap) (p : String) : Except String Snap :=
  if (snapKeys snap).contains p then
    Except.ok (snap.filter (fun kv => decide (kv.1 ≠ p)))
  else
    Except.error "KeyError"

/-- `Handler.on_moved` from `folder_watcher.py`, as a function from the
in-memory snapshot to the resulting snapshot plus the list of
callbacks fired, in order.  `ign` models `fnmatch_any` against the
absolute event paths, `relOf` models `_get_relative_path`, and
`fhash` models `file_hash(target_folder / path)`.  A `KeyError`
escaping `_remove_from_snapshot` aborts the handler. -/
def onMoved (ign : String → Bool) (relOf : String → String)
    (fhash : String → String) (snap : Snap)
    (srcPath destPath : String) (isDir : Bool) :
    Except String (Snap × List Cb) := do
  let src := relOf srcPath
  let dest := relOf destPath
  if isDir then
    return (snap, [])
  let srcIgnored := ign srcPath
  let destIgnored := ign destPath
  if srcIgnored && destIgnored then
    return (snap, [])
  let mut s := snap
  let mut cbs : List Cb := []
  if srcIgnored then
    s ← snapDel s src
    cbs := cbs ++ [Cb.remove src]
  if destIgnored then
    cbs := cbs ++ [Cb.add dest]
    s := snapInsert s dest (fhash dest)
  s ← snapDel s src
  cbs := cbs ++ [Cb.rename src dest]
  s := snapInsert s dest (fhash dest)
  return (s, cbs)

/-- The loop of `split_text` in `docs_indexer.py`:
`while start < len(text): chunks.append(text[start:start+chunk_size]);
start += chunk_size - overlap`.  Terminates because the source is only
used with `overlap < chunk_size` (its defaults `500`/`100`). -/
def splitTextGo (chunk_size overlap : Nat) (hlt : overlap < chunk_size)
    (text : List Char) (start : Nat) : List (List Char) :=
  if _hs : start < text.length then
    ((text.drop start).take chunk_size)
      :: splitTextGo chunk_size overlap hlt text (start + (chunk_size - overlap))
  else
    []
termination_by text.length - start
decreasing_by omega

/-- `split_text(text, chunk_size, overlap)` from `docs_indexer.py`,
on text as a list of characters. -/
def split_text (text : List Char) (chunk_size overlap : Nat)
    (hlt : overlap < chunk_size) : List (List Char) :=
  splitTextGo chunk_size overlap hlt text 0

/-- A chunk record of the vector-store collection: chroma id,
`source_id`/`chunk_id` metadata, document text, embedding vector. -/
structure ChunkRec where
  rid : String
  source_id : String
  chunk_id : Nat
  content : List Char
  embedding : List Int
deriving DecidableEq, Repr

/-- The vector-store collection's contents. -/
abbrev Store := List ChunkRec

/-- `DocsIndexer._remove_from_vector_db`:
`collection.delete(where={"source_id": source_id})`. -/
def removeFromVectorDb (store : Store) (source_id : String) : Store :=
  store.filter (fun r => decide (r.source_id ≠ source_id))

/-- `collection.add(documents, embeddings, ids, metadatas)`: append one
record per position of the zipped argument lists. -/
def collectionAdd (store : Store) (docs : List (List Char))
    (embs : List (List Int)) (rids : List String)
    (metas : List (String × Nat)) : Store :=
  store ++ (rids.zip (metas.zip (docs.zip embs))).map
    (fun x => ⟨x.1, x.2.1.1, x.2.1.2, x.2.2.1, x.2.2.2⟩)

/-- `DocsIndexer._add_to_vector_db(id)`.  `readFn` models
`DocsIndexer._read` (`none` when the file does not exist, in which
case `_read` raises `FileNotFoundError`); `embed` models the batched
`openai_client.embeddings.create` call; `rand i` models the
`random.randint(0, 100000000)` drawn for the `i`-th chunk id.
Returns the resulting store, the escaped exception if any, and the
list of batches sent to the embedding provider. -/
def addToVectorDb (embed : List (List Char) → List (List Int))
    (readFn : String → Option (List Char)) (rand : Nat → Nat)
    (store : Store) (id : String) :
    Store × Option String × List (List (List Char)) :=
  let store1 := removeFromVectorDb store id
  match readFn id with
  | none => (store1, some "FileNotFoundError", [])
  | some content =>
    if content = [] then (store1, none, [])
    else
      let chunks := split_text content 500 100 (by omega)
      let embs := embed chunks
      let rids := (List.range chunks.length).map
        (fun i => id ++ "_" ++ toString i ++ "_" ++ toString (rand i))
      let metas := (List.range chunks.length).map (fun i => (id, i))
      (collectionAdd store1 chunks embs rids metas, none, [chunks])

/-- `collection.update(ids, metadatas)`: for each record whose chroma
id occurs in `ids`, replace its metadata (`source_id`, `chunk_id`)
with the metadata zipped at the same position. -/
def collectionUpdate (store : Store) (rids : List String)
    (metas : List (String × Nat)) : Store :=
  store.map (fun r =>
    match (rids.zip metas).find? (fun x => x.1 = r.rid) with
    | some x => { r with source_id := x.2.1, chunk_id := x.2.2 }
    | none => r)

/-- `DocsIndexer._rename_in_vector_db(old_id, new_id)`: get the records
with `source_id = old_id`; if none, return silently; otherwise copy
each record's metadata with `source_id` replaced by `new_id` and
update those records in place.  The second component is the list of
batches sent to the embedding provider (there are none). -/
def renameInVectorDb (store : Store) (old_id new_id : String) :
    Store × List (List (List Char)) :=
  let results := store.filter (fun r => decide (r.source_id = old_id))
  if results.map (fun r => r.rid) = [] then
    (store, [])
  else
    let newMetas := results.map (fun r => (new_id, r.chunk_id))
    (collectionUpdate store (results.map (fun r => r.rid)) newMetas, [])

/-- A chunk record without its freshly generated chroma id: `source_id`,
`chunk_id`, document text, embedding vector. -/
def projRec (r : ChunkRec) : String × Nat × List Char × List Int :=
  (r.source_id, r.chunk_id, r.content, r.embedding)

/-- A store viewed up to the freshly generated chroma record ids. -/
def eraseIds (store : Store) : List (String × Nat × List Char × List Int) :=
  store.map projRec

/-- The ordering property "all remove callbacks fire before any add
callback": no remove callback occurs after an add callback in the
trace. -/
def removesBeforeAdds (tr : List Action) : Prop :=
  ∀ pre p post, tr = pre ++ Action.cbAdd p :: post
    → ∀ q, Action.cbRemove q ∉ post

/-! ## Theorems -/

lemma splitTextGo_shift (c o : Nat) (hlt : o < c) (k : Nat) (t : List Char) (s : Nat) :
    splitTextGo c o hlt t (s + k) = splitTextGo c o hlt (t.drop k) s := by
  conv_lhs => rw [splitTextGo]
  conv_rhs => rw [splitTextGo]
  by_cases h : s + k < t.length
  · have h2 : s < (t.drop k).length := by
      rw [List.length_drop]; omega
    rw [dif_pos h, dif_pos h2]
    have hdrop : (t.drop k).drop s = t.drop (s + k) := by
      rw [List.drop_drop, Nat.add_comm]
    rw [hdrop]
    have hrec := splitTextGo_shift c o hlt k t (s + (c - o))
    have harg : s + (c - o) + k = s + k + (c - o) := by omega
    rw [harg] at hrec
    rw [hrec]
  · have h2 : ¬ s < (t.drop k).length := by
      rw [List.length_drop]; omega
    rw [dif_neg h, dif_neg h2]
termination_by t.length - s
decreasing_by omega

lemma split_text_nil (hlt : (100:Nat) < 500) : split_text [] 500 100 hlt = [] := by
  rw [split_text, splitTextGo]
  simp

lemma split_text_cons (t : List Char) (hlt : (100:Nat) < 500) (hne : t ≠ []) :
    split_text t 500 100 hlt
      = t.take 500 :: split_text (t.drop 400) 500 100 hlt := by
  rw [split_text, split_text]
  conv_lhs => rw [splitTextGo]
  have h0 : 0 < t.length := List.length_pos.mpr hne
  rw [dif_pos h0]
  simp only [List.drop_zero]
  rw [show (0:Nat) + (500 - 100) = 0 + 400 by omega]
  have hsh := splitTextGo_shift 500 100 hlt 400 t 0
  rw [hsh]

lemma split_text_600 (t : List Char) (hlt : (100:Nat) < 500) (h600 : t.length = 600) :
    split_text t 500 100 hlt = [t.take 500, t.drop 400] := by
  have hne : t ≠ [] := by
    intro h; rw [h] at h600; simp at h600
  rw [split_text_cons t hlt hne]
  have hne2 : t.drop 400 ≠ [] := by
    intro h
    have := congrArg List.length h
    rw [List.length_drop] at this
    simp at this
    omega
  rw [split_text_cons (t.drop 400) hlt hne2]
  have htake : (t.drop 400).take 500 = t.drop 400 := by
    apply List.take_of_length_le
    rw [List.length_drop]
    omega
  have hdrop2 : (t.drop 400).drop 400 = [] := by
    rw [List.drop_drop]
    apply List.drop_eq_nil_of_le
    omega
  rw [htake, hdrop2, split_text_nil]

/-- C9: `split_text` with size 500 and overlap 100 implements the sliding
window: the empty text yields no chunks (not one empty chunk), a
nonempty text yields `text[0:500]` followed by the chunks of the text
advanced by `500 - 100 = 400`; in particular `"ab"` yields exactly the
single chunk `"ab"`, and any 600-character text yields exactly two
chunks, whose second begins with the last 100 characters of the
first. -/
theorem c9_split_text_sliding_window (hlt : (100:Nat) < 500) :
    (split_text [] 500 100 hlt = [])
    ∧ (split_text ['a', 'b'] 500 100 hlt = [['a', 'b']])
    ∧ (∀ t : List Char, t ≠ [] →
        split_text t 500 100 hlt
          = t.take 500 :: split_text (t.drop 400) 500 100 hlt)
    ∧ (∀ t : List Char, t.length = 600 →
        split_text t 500 100 hlt = [t.take 500, t.drop 400]
          ∧ (t.drop 400).take 100 = (t.take 500).drop 400) := by
  refine ⟨split_text_nil hlt, ?_, fun t h => split_text_cons t hlt h, ?_⟩
  · rw [split_text_cons _ hlt (by simp)]
    simp [split_text_nil hlt]
  · intro t h600
    refine ⟨split_text_600 t hlt h600, ?_⟩
    rw [List.drop_take]

/-- Witness for C9 at `"ab"` and at the 600-character text `'a' * 600`. -/
theorem c9_split_text_sliding_window_witness :
    ((100:Nat) < 500)
    ∧ (['a', 'b'] ≠ ([] : List Char) ∧
        split_text ['a', 'b'] 500 100 (by omega)
          = ['a', 'b'].take 500 :: split_text (['a', 'b'].drop 400) 500 100 (by omega))
    ∧ ((List.replicate 600 'a').length = 600 ∧
        (split_text (List.replicate 600 'a') 500 100 (by omega)
            = [(List.replicate 600 'a').take 500, (List.replicate 600 'a').drop 400]
          ∧ ((List.replicate 600 'a').drop 400).take 100
              = ((List.replicate 600 'a').take 500).drop 400)) :=
  ⟨by omega,
   ⟨by decide, (c9_split_text_sliding_window (by omega)).2.2.1 ['a', 'b'] (by decide)⟩,
   ⟨by rw [List.length_replicate],
    (c9_split_text_sliding_window (by omega)).2.2.2 (List.replicate 600 'a')
      (by rw [List.length_replicate])⟩⟩



lemma lastPersist_eq_none (l : List Action)
    (h : ∀ a ∈ l, a.isCallback = true) : lastPersist l = none := by
  induction l with
  | nil => rfl
  | cons a rest ih =>
    have hrest := ih (fun x hx => h x (List.mem_cons_of_mem a hx))
    have ha := h a (List.mem_cons_self a rest)
    cases a with
    | persist s => simp [Action.isCallback] at ha
    | cbAdd p => simp [lastPersist, hrest]
    | cbRemove p => simp [lastPersist, hrest]
    | cbRename p q => simp [lastPersist, hrest]

lemma mem_addRemove_isCallback (old new : Snap) (x : Action)
    (hx : x ∈ (addedPaths old new).map Action.cbAdd
            ++ (removedPaths old new).map Action.cbRemove) :
    x.isCallback = true := by
  simp only [List.mem_append, List.mem_map] at hx
  rcases hx with ⟨p, _, rfl⟩ | ⟨p, _, rfl⟩ <;> rfl

lemma snapKeys_postRemoval_subset (old new : Snap) (p : String)
    (hp : p ∈ snapKeys (postRemovalSnap old new)) : p ∈ snapKeys old := by
  simp only [snapKeys, postRemovalSnap, List.mem_map] at hp ⊢
  rcases hp with ⟨kv, hkv, rfl⟩
  exact ⟨kv, List.mem_of_mem_filter hkv, rfl⟩

/-- C1: in `_initial_diff`, the post-removal snapshot (the old snapshot
restricted to keys not in the removed set) is persisted before any
add or remove callback of the diff is fired: at every callback of the
trace the last snapshot persisted so far is exactly the post-removal
snapshot, and no path with a pending (or any) add callback of the
diff is a key of it — so a crash mid-delivery never finds a
not-yet-added path recorded on disk. -/
theorem c1_persist_before_callbacks (old new : Snap)
    (pre : List Action) (c : Action) (post : List Action)
    (hsplit : (initialDiff old new).1 = pre ++ c :: post)
    (hc : c.isCallback = true) :
    lastPersist pre = some (postRemovalSnap old new)
    ∧ ∀ p, Action.cbAdd p ∈ c :: post
        → p ∉ snapKeys (postRemovalSnap old new) := by
  simp only [initialDiff] at hsplit
  constructor
  · cases pre with
    | nil =>
      rw [List.nil_append] at hsplit
      rw [List.append_assoc, List.append_assoc, List.singleton_append] at hsplit
      obtain ⟨hch, -⟩ := List.cons.inj hsplit
      rw [← hch] at hc
      simp [Action.isCallback] at hc
    | cons a pre' =>
      rw [List.append_assoc, List.append_assoc, List.singleton_append,
        List.cons_append] at hsplit
      obtain ⟨hha, htail⟩ := List.cons.inj hsplit
      rw [← List.append_assoc] at htail
      rcases List.append_eq_append_iff.mp htail with ⟨a', h1, h2⟩ | ⟨c', h1, h2⟩
      · cases a' with
        | nil =>
          rw [List.nil_append] at h2
          obtain ⟨hch, -⟩ := List.cons.inj h2.symm
          rw [hch] at hc
          simp [Action.isCallback] at hc
        | cons x xs =>
          have := congrArg List.length h2
          simp at this
      · have hpre' : ∀ x ∈ pre', x.isCallback = true := by
          intro x hx
          apply mem_addRemove_isCallback old new
          rw [h1]
          exact List.mem_append_left c' hx
        have hnone := lastPersist_eq_none pre' hpre'
        rw [← hha]
        simp [lastPersist, hnone]
  · intro p hp
    have hmem : Action.cbAdd p ∈ pre ++ c :: post :=
      List.mem_append_right pre hp
    rw [← hsplit] at hmem
    simp at hmem
    intro hkey
    have hold := snapKeys_postRemoval_subset old new p hkey
    simp only [addedPaths, List.mem_filter, decide_eq_true_eq] at hmem
    exact hmem.2 hold

/-- Witness for C1: old snapshot `{"a": "h1"}`, live scan `{"b": "h2"}`,
split at the `add("b")` callback. -/
theorem c1_persist_before_callbacks_witness :
    ((initialDiff [("a", "h1")] [("b", "h2")]).1
        = [Action.persist []]
            ++ Action.cbAdd "b"
              :: [Action.cbRemove "a", Action.persist [("b", "h2")]])
    ∧ (Action.cbAdd "b").isCallback = true
    ∧ lastPersist [Action.persist []]
        = some (postRemovalSnap [("a", "h1")] [("b", "h2")])
    ∧ "b" ∉ snapKeys (postRemovalSnap [("a", "h1")] [("b", "h2")]) := by
  refine ⟨by decide, by decide, ?_, ?_⟩
  · exact (c1_persist_before_callbacks [("a", "h1")] [("b", "h2")]
      [Action.persist []] (Action.cbAdd "b")
      [Action.cbRemove "a", Action.persist [("b", "h2")]]
      (by decide) (by decide)).1
  · exact (c1_persist_before_callbacks [("a", "h1")] [("b", "h2")]
      [Action.persist []] (Action.cbAdd "b")
      [Action.cbRemove "a", Action.persist [("b", "h2")]]
      (by decide) (by decide)).2 "b" (by decide)

lemma no_cbAdd_after (xs ys : List Action)
    (hxs : ∀ q, Action.cbRemove q ∉ xs) (hys : ∀ q, Action.cbAdd q ∉ ys)
    (pre : List Action) (p : String) (post : List Action)
    (h : xs ++ ys = pre ++ Action.cbRemove p :: post) :
    ∀ q, Action.cbAdd q ∉ post := by
  intro q hq
  rcases List.append_eq_append_iff.mp h with ⟨a', h1, h2⟩ | ⟨c', h1, h2⟩
  · exact hys q (h2 ▸ List.mem_append_right a' (List.mem_cons_of_mem _ hq))
  · cases c' with
    | nil =>
      rw [List.nil_append] at h2
      exact hys q (h2 ▸ List.mem_cons_of_mem _ hq)
    | cons x xs' =>
      obtain ⟨hx, -⟩ := List.cons.inj h2
      apply hxs p
      rw [h1, ← hx]
      exact List.mem_append_right pre (List.mem_cons_self _ xs')

/-- C4 (amended): during startup reconciliation, all add callbacks of the
computed diff are fired before any remove callback of that diff: no
add callback occurs after a remove callback in the `_initial_diff`
trace. -/
theorem c4_adds_fired_before_removes (old new : Snap)
    (pre : List Action) (p : String) (post : List Action)
    (hsplit : (initialDiff old new).1 = pre ++ Action.cbRemove p :: post) :
    ∀ q, Action.cbAdd q ∉ post := by
  simp only [initialDiff] at hsplit
  rw [List.append_assoc, List.append_assoc, ← List.append_assoc] at hsplit
  apply no_cbAdd_after _ _ _ _ pre p post hsplit
  · intro q hq
    simp at hq
  · intro q hq
    simp at hq

/-- Witness for C4 (amended): old snapshot `{"a": "h1"}`, live scan
`{"b": "h2"}`, split at the `remove("a")` callback. -/
theorem c4_adds_fired_before_removes_witness :
    ((initialDiff [("a", "h1")] [("b", "h2")]).1
        = [Action.persist [], Action.cbAdd "b"]
            ++ Action.cbRemove "a" :: [Action.persist [("b", "h2")]])
    ∧ Action.cbAdd "b" ∉ [Action.persist [("b", "h2")]] := by
  refine ⟨by decide, ?_⟩
  exact c4_adds_fired_before_removes [("a", "h1")] [("b", "h2")]
    [Action.persist [], Action.cbAdd "b"] "a" [Action.persist [("b", "h2")]]
    (by decide) "b"

/-- C4 (counterexample): the claim as stated — during startup
reconciliation all remove callbacks fire before any add callback —
fails on the diff of old snapshot `{"a": "h1"}` against live scan
`{"b": "h2"}`: `_initial_diff` fires `add("b")` first and
`remove("a")` after it. -/
theorem c4_removes_before_adds_counterexample :
    ¬ removesBeforeAdds (initialDiff [("a", "h1")] [("b", "h2")]).1 := by
  intro h
  exact h [Action.persist []] "b"
    [Action.cbRemove "a", Action.persist [("b", "h2")]] (by decide) "a"
    (by decide)

/-- C2: on a live move of a non-directory whose source is ignored and
whose destination is not (`src = "/w/_index/a.md"`,
`dst = "/w/a.md"`), the handler is not a pure `add(dst)`: it first
runs `_remove_from_snapshot(src)` — but an ignored source is never a
snapshot key, so `del` raises `KeyError` and no callback at all is
delivered. -/
theorem c2_on_moved_src_ignored_raises :
    (fun p => decide (p = "/w/_index/a.md")) "/w/_index/a.md" = true
    ∧ (fun p => decide (p = "/w/_index/a.md")) "/w/a.md" = false
    ∧ onMoved (fun p => decide (p = "/w/_index/a.md"))
        (fun p => if p = "/w/_index/a.md" then "_index/a.md" else "a.md")
        (fun _ => "h") [] "/w/_index/a.md" "/w/a.md" false
        = Except.error "KeyError" := by
  refine ⟨by decide, by decide, ?_⟩
  rfl

/-- C3: the ignore invariant fails on a live move of a non-directory
from a tracked, non-ignored source (`/w/a.md`) to an ignored
destination (`/w/_index/a.md`): the handler fires `add` and `rename`
callbacks carrying the ignored destination and registers the ignored
destination as a snapshot key. -/
theorem c3_on_moved_dest_ignored_breaks_invariant :
    (fun p => decide (p = "/w/_index/a.md")) "/w/_index/a.md" = true
    ∧ onMoved (fun p => decide (p = "/w/_index/a.md"))
        (fun p => if p = "/w/_index/a.md" then "_index/a.md" else "a.md")
        (fun _ => "h") [("a.md", "h1")] "/w/a.md" "/w/_index/a.md" false
        = Except.ok ([("_index/a.md", "h")],
            [Cb.add "_index/a.md", Cb.rename "a.md" "_index/a.md"])
    ∧ "_index/a.md" ∈ snapKeys [("_index/a.md", "h")] := by
  refine ⟨by decide, ?_, by decide⟩
  rfl

/-- C5: `DocsIndexer.check` (modelled from the spec, see `check`)
performs the same diff-and-reconcile pass as startup: a `start` whose
snapshot file loads to the running watcher's in-memory snapshot
produces exactly the trace `check` produces from that watcher state,
and `check` leaves the observer's running flag untouched (no
restart). -/
theorem c5_check_is_startup_reconciliation (file : Option String)
    (parse : String → Option Snap) (live : Snap) (st : WatcherState)
    (h : loadSnapshot file parse = Except.ok st.snap) :
    startWatcher file parse live
      = Except.ok ({ snap := (check live st).1.snap, running := true },
          (check live st).2)
    ∧ (check live st).1.running = st.running := by
  constructor
  · simp only [startWatcher, h, check]
  · rfl

/-- Witness for C5: absent snapshot file, running watcher with empty
in-memory snapshot, live scan `{"a": "h"}`. -/
theorem c5_check_is_startup_reconciliation_witness :
    loadSnapshot none (fun _ => none) = Except.ok (⟨[], true⟩ : WatcherState).snap
    ∧ (startWatcher none (fun _ => none) [("a", "h")]
        = Except.ok
            ({ snap := (check [("a", "h")] ⟨[], true⟩).1.snap, running := true },
              (check [("a", "h")] ⟨[], true⟩).2)
      ∧ (check [("a", "h")] ⟨[], true⟩).1.running = (⟨[], true⟩ : WatcherState).running) :=
  ⟨rfl, c5_check_is_startup_reconciliation none (fun _ => none) [("a", "h")]
    ⟨[], true⟩ rfl⟩

/-- C6 (amended): `load_snapshot` returns the empty mapping, without
raising, when the snapshot file is absent (`FileNotFoundError` is
caught), and returns the parsed mapping when it parses; but a present
file that fails to parse raises `json.JSONDecodeError`, which is not
caught. -/
theorem c6_load_snapshot_fallback (parse : String → Option Snap) :
    loadSnapshot none parse = Except.ok []
    ∧ (∀ text m, parse text = some m
        → loadSnapshot (some text) parse = Except.ok m)
    ∧ (∀ text, parse text = none
        → loadSnapshot (some text) parse = Except.error "JSONDecodeError") := by
  refine ⟨rfl, ?_, ?_⟩
  · intro text m hm
    simp [loadSnapshot, hm]
  · intro text hm
    simp [loadSnapshot, hm]

/-- Witness for C6 (amended): a parser that fails on everything, applied
to the file content `"not json"`. -/
theorem c6_load_snapshot_fallback_witness :
    loadSnapshot none (fun _ => none) = Except.ok []
    ∧ ((fun _ => (none : Option Snap)) "not json" = none
      ∧ loadSnapshot (some "not json") (fun _ => none)
          = Except.error "JSONDecodeError") :=
  ⟨(c6_load_snapshot_fallback (fun _ => none)).1,
   rfl, (c6_load_snapshot_fallback (fun _ => none)).2.2 "not json" rfl⟩

/-- C6 (counterexample): a present but unparsable snapshot file is not
treated as an empty baseline — `load_snapshot` raises instead of
returning the empty mapping. -/
theorem c6_corrupt_snapshot_raises :
    loadSnapshot (some "not json") (fun _ => none) ≠ Except.ok []
  ∧ loadSnapshot (some "not json") (fun _ => none)
      = Except.error "JSONDecodeError" :=
  ⟨by intro h; simp [loadSnapshot] at h, rfl⟩

/-- C10: `_add_to_vector_db` is not atomic on read failure: when the
file does not exist, it has already deleted every chunk record with
`source_id = p` before `_read` raises `FileNotFoundError`, so the
escaped error leaves the store with zero records for `p`. -/
theorem c10_on_add_deletes_before_raising
    (embed : List (List Char) → List (List Int))
    (readFn : String → Option (List Char)) (rand : Nat → Nat)
    (store : Store) (p : String) (h : readFn p = none) :
    addToVectorDb embed readFn rand store p
      = (removeFromVectorDb store p, some "FileNotFoundError", [])
    ∧ ∀ r ∈ (addToVectorDb embed readFn rand store p).1, r.source_id ≠ p := by
  have he : addToVectorDb embed readFn rand store p
      = (removeFromVectorDb store p, some "FileNotFoundError", []) := by
    simp [addToVectorDb, h]
  refine ⟨he, ?_⟩
  rw [he]
  intro r hr
  simp only [removeFromVectorDb, List.mem_filter, decide_eq_true_eq] at hr
  exact hr.2

/-- Witness for C10: a store holding one record for `"p"`, a filesystem
where `"p"` does not exist: the record is deleted and the error
escapes. -/
theorem c10_on_add_deletes_before_raising_witness :
    (fun _ => (none : Option (List Char))) "p" = none
    ∧ addToVectorDb (fun _ => []) (fun _ => none) (fun _ => 0)
        [⟨"r1", "p", 0, ['x'], [1]⟩] "p"
      = (removeFromVectorDb [⟨"r1", "p", 0, ['x'], [1]⟩] "p",
          some "FileNotFoundError", []) :=
  ⟨rfl, (c10_on_add_deletes_before_raising (fun _ => []) (fun _ => none)
    (fun _ => 0) [⟨"r1", "p", 0, ['x'], [1]⟩] "p" rfl).1⟩

lemma removeFromVectorDb_idem (store : Store) (p : String) :
    removeFromVectorDb (removeFromVectorDb store p) p
      = removeFromVectorDb store p := by
  simp [removeFromVectorDb, List.filter_filter]

lemma removeFromVectorDb_append (s t : Store) (p : String) :
    removeFromVectorDb (s ++ t) p
      = removeFromVectorDb s p ++ removeFromVectorDb t p := by
  simp [removeFromVectorDb]

lemma removeFromVectorDb_zipRecs (p : String) (rids : List String)
    (t : List ((String × Nat) × (List Char × List Int)))
    (ht : ∀ x ∈ t, x.1.1 = p) :
    removeFromVectorDb
      ((rids.zip t).map
        (fun x => (⟨x.1, x.2.1.1, x.2.1.2, x.2.2.1, x.2.2.2⟩ : ChunkRec))) p
      = [] := by
  rw [removeFromVectorDb, List.filter_eq_nil_iff]
  intro r hr
  simp only [List.mem_map] at hr
  obtain ⟨x, hx, rfl⟩ := hr
  have := ht x.2 (List.of_mem_zip hx).2
  simp [this]

lemma eraseIds_zipRecs_rand_indep
    (t : List ((String × Nat) × (List Char × List Int))) :
    ∀ rids rids' : List String, rids.length = rids'.length →
      eraseIds ((rids.zip t).map
          (fun x => (⟨x.1, x.2.1.1, x.2.1.2, x.2.2.1, x.2.2.2⟩ : ChunkRec)))
        = eraseIds ((rids'.zip t).map
          (fun x => (⟨x.1, x.2.1.1, x.2.1.2, x.2.2.1, x.2.2.2⟩ : ChunkRec))) := by
  induction t with
  | nil => intro rids rids' _; simp [eraseIds]
  | cons x ts ih =>
    intro rids rids' hlen
    cases rids with
    | nil =>
      cases rids' with
      | nil => rfl
      | cons b bs => simp at hlen
    | cons a as =>
      cases rids' with
      | nil => simp at hlen
      | cons b bs =>
        simp only [List.zip_cons_cons, List.map_cons, eraseIds, projRec]
        simp only [List.length_cons, Nat.add_right_cancel_iff] at hlen
        have := ih as bs hlen
        simp only [eraseIds] at this
        rw [this]

/-- C7: for a path whose content is readable and unchanged between
calls, running `_add_to_vector_db(p)` twice in a row leaves, up to
the freshly generated chroma record ids, exactly the chunk-record set
racked by a single call: the first call's records are deleted before
the second call's insert. -/
theorem c7_on_add_idempotent
    (embed : List (List Char) → List (List Int))
    (readFn : String → Option (List Char)) (r₁ r₂ r₃ : Nat → Nat)
    (store : Store) (p : String) (c : List Char)
    (hread : readFn p = some c) :
    eraseIds (addToVectorDb embed readFn r₂
        (addToVectorDb embed readFn r₁ store p).1 p).1
      = eraseIds (addToVectorDb embed readFn r₃ store p).1 := by
  by_cases hc : c = []
  · subst hc
    simp [addToVectorDb, hread, removeFromVectorDb_idem]
  · simp only [addToVectorDb, hread, hc, collectionAdd, if_false]
    rw [removeFromVectorDb_append, removeFromVectorDb_idem,
      removeFromVectorDb_zipRecs]
    · simp only [List.append_nil, eraseIds, List.map_append]
      congr 1
      have := eraseIds_zipRecs_rand_indep
        ((((List.range (split_text c 500 100 (by omega)).length).map
            (fun i => (p, i)))).zip
          ((split_text c 500 100 (by omega)).zip
            (embed (split_text c 500 100 (by omega)))))
        (((List.range (split_text c 500 100 (by omega)).length).map
          (fun i => p ++ "_" ++ toString i ++ "_" ++ toString (r₂ i))))
        (((List.range (split_text c 500 100 (by omega)).length).map
          (fun i => p ++ "_" ++ toString i ++ "_" ++ toString (r₃ i))))
        (by simp)
      simp only [eraseIds] at this
      exact this
    · intro x hx
      have := (List.of_mem_zip hx).1
      simp only [List.mem_map] at this
      obtain ⟨i, -, hi⟩ := this
      rw [← hi]

/-- Witness for C7: empty store, file `"p"` with content `"a"`,
three different id generators. -/
theorem c7_on_add_idempotent_witness :
    (fun _ => some ['a'] : String → Option (List Char)) "p" = some ['a']
    ∧ eraseIds (addToVectorDb (fun cs => cs.map (fun _ => [0]))
        (fun _ => some ['a']) (fun _ => 1)
        (addToVectorDb (fun cs => cs.map (fun _ => [0]))
          (fun _ => some ['a']) (fun _ => 0) [] "p").1 "p").1
      = eraseIds (addToVectorDb (fun cs => cs.map (fun _ => [0]))
          (fun _ => some ['a']) (fun _ => 2) [] "p").1 :=
  ⟨rfl, c7_on_add_idempotent (fun cs => cs.map (fun _ => [0]))
    (fun _ => some ['a']) (fun _ => 0) (fun _ => 1) (fun _ => 2) [] "p" ['a'] rfl⟩

lemma find?_ridMap_eq_some (l : Store) (r : ChunkRec) (new_id : String)
    (hmem : r ∈ l) (huniq : ∀ t ∈ l, t.rid = r.rid → t = r) :
    (l.map (fun t => (t.rid, (new_id, t.chunk_id)))).find?
        (fun x => x.1 = r.rid)
      = some (r.rid, (new_id, r.chunk_id)) := by
  induction l with
  | nil => cases hmem
  | cons a as ih =>
    rw [List.map_cons]
    by_cases ha : a.rid = r.rid
    · have har : a = r := huniq a (List.mem_cons_self a as) ha
      subst har
      exact List.find?_cons_of_pos _ (by simp)
    · rw [List.find?_cons_of_neg _ (by simp [ha])]
      have hmem' : r ∈ as := by
        rcases List.mem_cons.mp hmem with h | h
        · exact absurd (congrArg ChunkRec.rid h.symm) ha
        · exact h
      exact ih hmem' (fun t ht => huniq t (List.mem_cons_of_mem a ht))

lemma find?_ridMap_eq_none (l : Store) (rid0 : String) (new_id : String)
    (h : ∀ t ∈ l, t.rid ≠ rid0) :
    (l.map (fun t => (t.rid, (new_id, t.chunk_id)))).find?
        (fun x => x.1 = rid0) = none := by
  rw [List.find?_eq_none]
  intro x hx
  simp only [List.mem_map] at hx
  obtain ⟨t, ht, rfl⟩ := hx
  simp [h t ht]

/-- C8: `_rename_in_vector_db(old_id, new_id)` rewrites `source_id` to
`new_id` on exactly the records whose `source_id` is `old_id`,
leaving every record's `chunk_id`, `content` and `embedding`
unchanged; it sends no batch to the embedding provider; and when no
record has `source_id = old_id` it leaves the store unchanged. -/
theorem c8_rename_in_place (store : Store) (old_id new_id : String)
    (hnd : (store.map (fun r => r.rid)).Nodup) :
    (renameInVectorDb store old_id new_id).1
      = store.map (fun r => if r.source_id = old_id
          then { r with source_id := new_id } else r)
    ∧ (renameInVectorDb store old_id new_id).2 = []
    ∧ (store.filter (fun r => r.source_id = old_id) = []
        → (renameInVectorDb store old_id new_id).1 = store) := by
  have hmain : (renameInVectorDb store old_id new_id).1
      = store.map (fun r => if r.source_id = old_id
          then { r with source_id := new_id } else r) := by
    rw [renameInVectorDb]
    by_cases hres : store.filter (fun r => decide (r.source_id = old_id)) = []
    · rw [hres]
      simp only [List.map_nil, if_pos]
      have hnone : ∀ r ∈ store, ¬ r.source_id = old_id := by
        intro r hr
        have := List.filter_eq_nil_iff.mp hres r hr
        simpa using this
      rw [List.map_congr_left (fun r hr => by rw [if_neg (hnone r hr)])]
      simp
    · rw [if_neg (by simpa using hres)]
      simp only [collectionUpdate]
      have hzip : ((store.filter (fun r => decide (r.source_id = old_id))).map
            (fun r => r.rid)).zip
          ((store.filter (fun r => decide (r.source_id = old_id))).map
            (fun r => (new_id, r.chunk_id)))
          = (store.filter (fun r => decide (r.source_id = old_id))).map
              (fun t => (t.rid, (new_id, t.chunk_id))) :=
        List.zip_map' _ _ _
      rw [hzip]
      apply List.map_congr_left
      intro r hr
      have hinj : ∀ t ∈ store, t.rid = r.rid → t = r := fun t ht he =>
        List.inj_on_of_nodup_map hnd ht hr he
      by_cases hsrc : r.source_id = old_id
      · have hrmem : r ∈ store.filter (fun r => decide (r.source_id = old_id)) :=
          List.mem_filter.mpr ⟨hr, by simp [hsrc]⟩
        rw [find?_ridMap_eq_some _ r new_id hrmem
          (fun t ht he => hinj t (List.mem_of_mem_filter ht) he)]
        simp [hsrc]
      · rw [find?_ridMap_eq_none _ r.rid new_id ?_]
        · rw [if_neg hsrc]
        · intro t ht he
          have := hinj t (List.mem_of_mem_filter ht) he
          subst this
          have := (List.mem_filter.mp ht).2
          simp [hsrc] at this
  refine ⟨hmain, ?_, ?_⟩
  · rw [renameInVectorDb]
    by_cases hres : store.filter (fun r => decide (r.source_id = old_id)) = []
    · rw [hres]; simp
    · rw [if_neg (by simpa using hres)]
  · intro hres
    rw [hmain]
    have hnone : ∀ r ∈ store, ¬ r.source_id = old_id := by
      intro r hr
      have := List.filter_eq_nil_iff.mp hres r hr
      simpa using this
    rw [List.map_congr_left (fun r hr => by rw [if_neg (hnone r hr)])]
    simp

/-- Witness for C8: a two-record store (nodup chroma ids), renaming
`"a.md"` to `"b.md"`. -/
theorem c8_rename_in_place_witness :
    (([⟨"r1", "a.md", 0, ['h'], [1]⟩, ⟨"r2", "c.md", 0, ['x'], [2]⟩] :
        Store).map (fun r => r.rid)).Nodup
    ∧ (renameInVectorDb
          [⟨"r1", "a.md", 0, ['h'], [1]⟩, ⟨"r2", "c.md", 0, ['x'], [2]⟩]
          "a.md" "b.md").1
        = [⟨"r1", "b.md", 0, ['h'], [1]⟩, ⟨"r2", "c.md", 0, ['x'], [2]⟩]
    ∧ (renameInVectorDb
          [⟨"r1", "a.md", 0, ['h'], [1]⟩, ⟨"r2", "c.md", 0, ['x'], [2]⟩]
          "a.md" "b.md").2 = [] := by
  have h := c8_rename_in_place
    [⟨"r1", "a.md", 0, ['h'], [1]⟩, ⟨"r2", "c.md", 0, ['x'], [2]⟩]
    "a.md" "b.md" (by decide)
  refine ⟨by decide, ?_, h.2.1⟩
  rw [h.1]
  decide

end Assistant
